import Mathlib

/-!
# Verification of the NOTES-FCND motion-planning notebook

Shallow embedding of the code in `Course02/Configuration-Space.ipynb`:
the obstacle rasterizer `create_grid`, the action model `valid_actions`,
and the FIFO cost-annotated search `uniform_cost` together with its
path-reconstruction phase.

Modelling notes, justified against the Python source:
* A grid is a list of rows of natural-number occupancy values; the code
  compares entries against `1`.
* NumPy/Python indexing `grid[i, j]` accepts negative indices down to
  `-len` (wrapping) and raises `IndexError` beyond that; `pyGet` models
  this with `Option`, and raised exceptions are modelled with `Except`.
* Action traversal costs are `1` for orthogonal moves and `sqrt 2` for
  diagonal moves; every cost arising in the program is a natural-number
  combination `a + b * sqrt 2`, represented exactly as the pair `(a, b)`.
* In `uniform_cost` the Python line `visited = set(start)` builds the set
  of the two integer coordinates of `start` (not the singleton set holding
  the cell `start`); no coordinate integer is ever equal to a cell pair,
  so every later membership test `next_node not in visited` sees an
  initially empty set of cells.  The embedding therefore starts `visited`
  at `[]`.
* The Python `branch` dict is insertion-ordered with unique keys; it is
  modelled as an association list appended at the tail, looked up from the
  head.
* The `while not queue.empty()` loop and the retrace `while` loop are
  modelled with explicit fuel; fuel exhaustion is a distinguished error
  that the termination theorems rule out where needed.
-/

namespace FCND

/-- A grid cell, the Python pair `(x, y)` of integer coordinates. -/
abbrev Cell := ℤ × ℤ

/-- An exact traversal cost `a + b * sqrt 2`, stored as `(a, b)`. -/
abbrev Cost := ℕ × ℕ

/-- Addition of exact costs. -/
def Cost.add (c d : Cost) : Cost := (c.1 + d.1, c.2 + d.2)

/-- The real value of an exact cost. -/
noncomputable def costValue (c : Cost) : ℝ := (c.1 : ℝ) + (c.2 : ℝ) * Real.sqrt 2

/-- The `Action` enum of the notebook (the source spells the up-left
variant `UP_LEFL`). -/
inductive Action where
  | LEFT
  | RIGHT
  | UP
  | DOWN
  | UP_LEFL
  | UP_RIGHT
  | DOWN_LEFT
  | DOWN_RIGHT
deriving DecidableEq, Repr

/-- `Action.delta`: the first two components of the enum value. -/
def Action.delta : Action → ℤ × ℤ
  | .LEFT => (0, -1)
  | .RIGHT => (0, 1)
  | .UP => (-1, 0)
  | .DOWN => (1, 0)
  | .UP_LEFL => (-1, -1)
  | .UP_RIGHT => (-1, 1)
  | .DOWN_LEFT => (1, -1)
  | .DOWN_RIGHT => (1, 1)

/-- `Action.cost`: the third component of the enum value, `1` for the four
orthogonal moves and `sqrt 2` for the four diagonal moves. -/
def Action.cost : Action → Cost
  | .LEFT => (1, 0)
  | .RIGHT => (1, 0)
  | .UP => (1, 0)
  | .DOWN => (1, 0)
  | .UP_LEFL => (0, 1)
  | .UP_RIGHT => (0, 1)
  | .DOWN_LEFT => (0, 1)
  | .DOWN_RIGHT => (0, 1)

/-- `current_node + action.delta`, the computation of `next_node`. -/
def applyDelta (c : Cell) (a : Action) : Cell :=
  (c.1 + a.delta.1, c.2 + a.delta.2)

/-- Occupancy grid: a rectangular list of rows of occupancy values. -/
abbrev Grid := List (List ℕ)

/-- `grid.shape[0]`. -/
def rows (g : Grid) : ℕ := g.length

/-- `grid.shape[1]` (row length; NumPy arrays are rectangular). -/
def cols (g : Grid) : ℕ := (g.head?.getD []).length

/-- The grid is rectangular: every row has length `cols g`. -/
def Rect (g : Grid) : Prop := ∀ row ∈ g, row.length = cols g

/-- Every grid value is an occupancy bit, `0` or `1`. -/
def BinaryGrid (g : Grid) : Prop := ∀ row ∈ g, ∀ v ∈ row, v = 0 ∨ v = 1

instance (g : Grid) : Decidable (Rect g) := by
  unfold Rect; infer_instance

instance (g : Grid) : Decidable (BinaryGrid g) := by
  unfold BinaryGrid; infer_instance

/-- The cell lies inside the grid bounds. -/
def inB (g : Grid) (c : Cell) : Prop :=
  0 ≤ c.1 ∧ c.1 < (rows g : ℤ) ∧ 0 ≤ c.2 ∧ c.2 < (cols g : ℤ)

instance (g : Grid) (c : Cell) : Decidable (inB g c) := by
  unfold inB; infer_instance

/-- Python sequence indexing: nonnegative indices below the length read
directly, negative indices down to `-len` wrap, anything else raises
`IndexError` (modelled as `none`). -/
def pyGet {α : Type} (l : List α) (i : ℤ) : Option α :=
  if 0 ≤ i ∧ i < (l.length : ℤ) then l.get? i.toNat
  else if -(l.length : ℤ) ≤ i ∧ i < 0 then l.get? (i + l.length).toNat
  else none

/-- NumPy two-dimensional element access `grid[i, j]`. -/
def gridGet (g : Grid) (i j : ℤ) : Option ℕ :=
  match pyGet g i with
  | none => none
  | some row => pyGet row j

/-- One occupancy test of `valid_actions`: the short-circuited Python
expression `oob or grid[i, j] == 1`.  When `oob` is false the element is
actually read, raising `IndexError` when out of range. -/
def occCheck (g : Grid) (oob : Bool) (i j : ℤ) : Except String Bool :=
  if oob then .ok true
  else
    match gridGet g i j with
    | some v => .ok (decide (v = 1))
    | none => .error "IndexError"

/-- The eight removal conditions of `valid_actions`, evaluated in source
order (UP, DOWN, LEFT, RIGHT, UP_LEFL, UP_RIGHT, DOWN_LEFT, DOWN_RIGHT);
the first raised `IndexError` aborts, as in Python. -/
def conds (g : Grid) (node : Cell) :
    Except String (Bool × Bool × Bool × Bool × Bool × Bool × Bool × Bool) :=
  let n : ℤ := (rows g : ℤ) - 1
  let m : ℤ := (cols g : ℤ) - 1
  let x := node.1
  let y := node.2
  match occCheck g (decide (x - 1 < 0)) (x - 1) y with
  | .error e => .error e
  | .ok cUP =>
  match occCheck g (decide (x + 1 > n)) (x + 1) y with
  | .error e => .error e
  | .ok cDOWN =>
  match occCheck g (decide (y - 1 < 0)) x (y - 1) with
  | .error e => .error e
  | .ok cLEFT =>
  match occCheck g (decide (y + 1 > m)) x (y + 1) with
  | .error e => .error e
  | .ok cRIGHT =>
  match occCheck g (decide (x - 1 < 0) || decide (y - 1 < 0)) (x - 1) (y - 1) with
  | .error e => .error e
  | .ok cUL =>
  match occCheck g (decide (x - 1 < 0) || decide (y + 1 > m)) (x - 1) (y + 1) with
  | .error e => .error e
  | .ok cUR =>
  match occCheck g (decide (x + 1 > n) || decide (y - 1 < 0)) (x + 1) (y - 1) with
  | .error e => .error e
  | .ok cDL =>
  match occCheck g (decide (x + 1 > n) || decide (y + 1 > m)) (x + 1) (y + 1) with
  | .error e => .error e
  | .ok cDR => .ok (cUP, cDOWN, cLEFT, cRIGHT, cUL, cUR, cDL, cDR)

/-- The fixed candidate list `valid` of the source, in its exact order. -/
def fullActionList : List Action :=
  [Action.UP, Action.LEFT, Action.RIGHT, Action.DOWN,
   Action.UP_LEFL, Action.UP_RIGHT, Action.DOWN_LEFT, Action.DOWN_RIGHT]

/-- The chain of conditional `valid.remove(...)` calls of the source. -/
def removeInvalid (cUP cDOWN cLEFT cRIGHT cUL cUR cDL cDR : Bool) : List Action :=
  let v0 := fullActionList
  let v1 := if cUP then v0.erase .UP else v0
  let v2 := if cDOWN then v1.erase .DOWN else v1
  let v3 := if cLEFT then v2.erase .LEFT else v2
  let v4 := if cRIGHT then v3.erase .RIGHT else v3
  let v5 := if cUL then v4.erase .UP_LEFL else v4
  let v6 := if cUR then v5.erase .UP_RIGHT else v5
  let v7 := if cDL then v6.erase .DOWN_LEFT else v6
  let v8 := if cDR then v7.erase .DOWN_RIGHT else v7
  v8

/-- `valid_actions(grid, current_node)` of the source. -/
def valid_actions (g : Grid) (node : Cell) : Except String (List Action) :=
  match conds g node with
  | .error e => .error e
  | .ok (cUP, cDOWN, cLEFT, cRIGHT, cUL, cUR, cDL, cDR) =>
      .ok (removeInvalid cUP cDOWN cLEFT cRIGHT cUL cUR cDL cDR)

/-- The branch (SearchRecord) dict: insertion-ordered association list
from a cell to `(new_cost, current_node, action)`. -/
abbrev Branch := List (Cell × (Cost × Cell × Action))

/-- Python dict lookup `branch[n]` (keys are unique by construction). -/
def lookupCell (b : Branch) (n : Cell) : Option (Cost × Cell × Action) :=
  match b with
  | [] => none
  | (k, v) :: rest => if k = n then some v else lookupCell rest n

/-- The mutable state of the `uniform_cost` search loop. -/
structure SState where
  queue : List (Cell × Cost)
  visited : List Cell
  branch : Branch
deriving Repr

/-- One step of the inner `for action in valid_actions(...)` loop:
compute `next_node` and `new_cost`; if unvisited, mark visited, enqueue
at the tail, and record the branch entry. -/
def ucStep (current : Cell) (ccost : Cost) (st : SState) (a : Action) : SState :=
  let nxt := applyDelta current a
  let ncost := Cost.add ccost a.cost
  if nxt ∈ st.visited then st
  else
    { queue := st.queue ++ [(nxt, ncost)],
      visited := nxt :: st.visited,
      branch := st.branch ++ [(nxt, (ncost, current, a))] }

/-- The whole inner `for` loop over the valid actions. -/
def expand (current : Cell) (ccost : Cost) (acts : List Action)
    (st : SState) : SState :=
  acts.foldl (ucStep current ccost) st

/-- The `while not queue.empty()` search loop, with explicit fuel. -/
def uc_loop (g : Grid) (goal : Cell) : ℕ → SState → Except String (Bool × Branch)
  | 0, _ => .error "fuel"
  | fuel + 1, st =>
    match st.queue with
    | [] => .ok (false, st.branch)
    | (current, ccost) :: rest =>
      if current = goal then .ok (true, st.branch)
      else
        match valid_actions g current with
        | .error e => .error e
        | .ok acts =>
            uc_loop g goal fuel (expand current ccost acts { st with queue := rest })

/-- Fuel that suffices for any search whose frontier stays inside the
grid: each iteration dequeues one entry and the number of enqueues is at
most one more than the number of cells ever marked visited. -/
def fuelFor (g : Grid) : ℕ := rows g * cols g + 2

/-- The search phase of `uniform_cost`: frontier seeded with
`(start, 0)`; the visited set starts empty for cell-valued membership
tests because `set(start)` holds only the two coordinate integers of
`start` (see the module comment). -/
def plan (g : Grid) (start goal : Cell) : Except String (Bool × Branch) :=
  uc_loop g goal (fuelFor g) { queue := [(start, (0, 0))], visited := [], branch := [] }

/-- The retrace `while branch[n][1] != start` loop, with fuel; returns the
actions in start-to-goal order (the source appends and finally reverses,
which yields the same list). -/
def retrace (b : Branch) (start : Cell) : ℕ → Cell → Except String (List Action)
  | 0, _ => .error "fuel"
  | fuel + 1, n =>
    match lookupCell b n with
    | none => .error "KeyError"
    | some (_, p, a) =>
      if p = start then .ok [a]
      else
        match retrace b start fuel p with
        | .error e => .error e
        | .ok l => .ok (l ++ [a])

/-- The reconstruction phase of `uniform_cost`: when `found`, the line
`path_cost = branch[n][0]` runs first (raising `KeyError` when `goal` has
no branch entry), then the retrace loop; otherwise `([], 0)`. -/
def reconstruct (found : Bool) (b : Branch) (start goal : Cell) :
    Except String (List Action × Cost) :=
  if found then
    match lookupCell b goal with
    | none => .error "KeyError"
    | some (pcost, _, _) =>
      match retrace b start (b.length + 1) goal with
      | .error e => .error e
      | .ok p => .ok (p, pcost)
  else .ok ([], (0, 0))

/-- `uniform_cost(grid, start, goal)`: search then reconstruction. -/
def uniform_cost (g : Grid) (start goal : Cell) :
    Except String (List Action × Cost) :=
  match plan g start goal with
  | .error e => .error e
  | .ok (found, b) => reconstruct found b start goal

/-- Endpoint of a path: apply each action delta in order from `s`. -/
def pathEnd (s : Cell) (p : List Action) : Cell := p.foldl applyDelta s

/-- Total exact cost of a path. -/
def costSum (p : List Action) : Cost :=
  p.foldl (fun acc a => Cost.add acc a.cost) (0, 0)

/-- The 5-by-6 grid of the notebook's search scenario. -/
def grid5 : Grid :=
  [[0, 1, 0, 0, 0, 0],
   [0, 1, 0, 1, 0, 0],
   [0, 1, 0, 0, 0, 0],
   [0, 1, 0, 0, 1, 0],
   [0, 0, 0, 1, 0, 0]]

/-! ## GridBuilder: `create_grid` -/

/-- One row of the obstacle table: center coordinates and half-extents. -/
structure Obstacle where
  north : ℚ
  east : ℚ
  alt : ℚ
  dNorth : ℚ
  dEast : ℚ
  dAlt : ℚ
deriving DecidableEq, Repr

/-- Minimum of a list of rationals (`np.amin`; the empty case never
arises because `create_grid` requires at least one obstacle row). -/
def minD : List ℚ → ℚ
  | [] => 0
  | x :: xs => xs.foldl min x

/-- Maximum of a list of rationals (`np.amax`). -/
def maxD : List ℚ → ℚ
  | [] => 0
  | x :: xs => xs.foldl max x

/-- `north_min = np.floor(np.amin(data[:, 0] - data[:, 3]))`. -/
def northMin (data : List Obstacle) : ℤ :=
  ⌊minD (data.map (fun o => o.north - o.dNorth))⌋

/-- `north_max = np.ceil(np.amax(data[:, 0] + data[:, 3]))`. -/
def northMax (data : List Obstacle) : ℤ :=
  ⌈maxD (data.map (fun o => o.north + o.dNorth))⌉

/-- `east_min = np.floor(np.amin(data[:, 1] - data[:, 4]))`. -/
def eastMin (data : List Obstacle) : ℤ :=
  ⌊minD (data.map (fun o => o.east - o.dEast))⌋

/-- `east_max = np.ceil(np.amax(data[:, 1] + data[:, 4]))`. -/
def eastMax (data : List Obstacle) : ℤ :=
  ⌈maxD (data.map (fun o => o.east + o.dEast))⌉

/-- `north_size = int(np.ceil(north_max - north_min))`; the operands are
already integers, so the ceiling is the difference itself. -/
def northSize (data : List Obstacle) : ℕ := (northMax data - northMin data).toNat

/-- `east_size = int(np.ceil(east_max - east_min))`. -/
def eastSize (data : List Obstacle) : ℕ := (eastMax data - eastMin data).toNat

/-- The altitude test of `create_grid`:
`drone_altitude > alt - d_alt - safety_distance and
 drone_altitude < alt + d_alt + safety_distance`. -/
def paintGuard (o : Obstacle) (altitude safety : ℚ) : Prop :=
  altitude > o.alt - o.dAlt - safety ∧ altitude < o.alt + o.dAlt + safety

instance (o : Obstacle) (altitude safety : ℚ) :
    Decidable (paintGuard o altitude safety) := by
  unfold paintGuard; infer_instance

/-- The obstacles whose footprints `create_grid` paints: those passing
the altitude test. -/
def paintedObstacles (data : List Obstacle) (altitude safety : ℚ) : List Obstacle :=
  data.filter (fun o => decide (paintGuard o altitude safety))

/-- Membership of grid index `(i, j)` in the clamped, safety-inflated
footprint rectangle assigned by the slice
`grid[obstacle[0]:obstacle[1]+1, obstacle[2]:obstacle[3]+1] = 1`. -/
def inFootprint (data : List Obstacle) (safety : ℚ) (o : Obstacle) (i j : ℕ) : Prop :=
  max 0 ⌊o.north - o.dNorth - safety - northMin data⌋ ≤ (i : ℤ) ∧
  (i : ℤ) ≤ min (northSize data : ℤ) ⌈o.north + o.dNorth + safety - northMin data⌉ ∧
  max 0 ⌊o.east - o.dEast - safety - eastMin data⌋ ≤ (j : ℤ) ∧
  (j : ℤ) ≤ min (eastSize data : ℤ) ⌈o.east + o.dEast + safety - eastMin data⌉

instance (data : List Obstacle) (safety : ℚ) (o : Obstacle) (i j : ℕ) :
    Decidable (inFootprint data safety o i j) := by
  unfold inFootprint; infer_instance

/-- The occupancy value `create_grid(data, altitude, safety)[i, j]`
computes for an in-range index: `1` exactly when some painted obstacle's
clamped footprint rectangle covers it, `0` otherwise (cells start at `0`
and painting only sets `1`). -/
def create_gridAt (data : List Obstacle) (altitude safety : ℚ) (i j : ℕ) : ℕ :=
  if i < northSize data ∧ j < eastSize data ∧
      (paintedObstacles data altitude safety).any
        (fun o => decide (inFootprint data safety o i j)) then 1 else 0

/-- The obstacle of the notebook's worked example, centered at
`(37, 12, 8)` with half-extents `(5, 5, 8)`. -/
def obstacle37 : Obstacle := ⟨37, 12, 8, 5, 5, 8⟩

/-! ## Concrete grids used by the search scenarios -/

/-- A fully free 2-by-2 grid. -/
def g2x2 : Grid := [[0, 0], [0, 0]]

/-- A 2-by-2 grid whose top-left cell is occupied. -/
def gOcc : Grid := [[1, 0], [0, 0]]

/-- A fully free 3-by-3 grid. -/
def free3 : Grid := [[0, 0, 0], [0, 0, 0], [0, 0, 0]]

/-- A 1-by-2 grid whose second cell is occupied. -/
def g1x2 : Grid := [[0, 1]]

/-- The action order C5 asserts (UP, DOWN, LEFT, RIGHT, then diagonals),
which differs from the code's candidate list `fullActionList`. -/
def claimedOrder : List Action :=
  [Action.UP, Action.DOWN, Action.LEFT, Action.RIGHT,
   Action.UP_LEFL, Action.UP_RIGHT, Action.DOWN_LEFT, Action.DOWN_RIGHT]

/-! ## Theorems for the claims -/

/-- C1: on the fixed 5-by-6 grid with start `(0,0)` and goal `(4,4)`, the
planner finds a path, and reconstruction returns exactly the 7-action
sequence DOWN, DOWN, DOWN, DOWN-RIGHT, RIGHT, UP-RIGHT, DOWN-RIGHT with
total cost `4 + 3 * sqrt 2` (whose 64-bit floating value prints as
`8.242640687119286`). -/
theorem c1_scenario_path_and_cost :
    uniform_cost grid5 (0, 0) (4, 4) =
      .ok ([.DOWN, .DOWN, .DOWN, .DOWN_RIGHT, .RIGHT, .UP_RIGHT, .DOWN_RIGHT], (4, 3)) ∧
    costValue (4, 3) = 4 + 3 * Real.sqrt 2 := by
  constructor
  · rfl
  · simp [costValue]

/-- The final branch record produced by searching the free 2-by-2 grid
from `(0,0)` to `(1,1)`: the start cell itself receives an entry. -/
def branch2 : Branch :=
  [((0, 1), ((1, 0), (0, 0), Action.RIGHT)),
   ((1, 0), ((1, 0), (0, 0), Action.DOWN)),
   ((1, 1), ((0, 1), (0, 0), Action.DOWN_RIGHT)),
   ((0, 0), ((2, 0), (0, 1), Action.LEFT))]

/-- C2 (refuting evaluation): because `visited = set(start)` seeds the
visited set with the two coordinate integers of `start` rather than with
the start cell, the start cell is treated as unvisited: on the free
2-by-2 grid with start `(0,0)` and goal `(1,1)` the search re-enqueues
`(0,0)` and records the branch entry
`(0,0) -> (cost 2, parent (0,1), action LEFT)`, which the claim says can
never happen. -/
theorem c2_start_gets_branch_entry :
    plan g2x2 (0, 0) (1, 1) = .ok (true, branch2) ∧
    lookupCell branch2 (0, 0) = some ((2, 0), (0, 1), Action.LEFT) := by
  constructor
  · rfl
  · rfl

/-- C3 (refuting evaluation): when `start == goal` the search breaks out
with `found = True` and an empty branch record, and the reconstruction
line `path_cost = branch[n][0]` then raises `KeyError` instead of
returning `(empty, 0)`; this holds for every grid and every cell. -/
theorem c3_start_eq_goal_keyerror (g : Grid) (c : Cell) :
    uniform_cost g c c = .error "KeyError" := by
  simp [uniform_cost, plan, fuelFor, uc_loop, reconstruct, lookupCell]

/-- C3 witness: the KeyError on the concrete one-cell grid. -/
theorem c3_start_eq_goal_keyerror_witness :
    uniform_cost [[0]] (0, 0) (0, 0) = .error "KeyError" :=
  c3_start_eq_goal_keyerror [[0]] (0, 0)

/-- C9 (counterexample): `uniform_cost` performs no endpoint validation:
with the start placed on the occupied cell `(0,0)` of `gOcc` the call
returns a normal search result (the path DOWN-RIGHT of cost `sqrt 2`),
so no error is signaled to the caller, before the loop or at all. -/
theorem c9_counterexample_no_error_on_occupied_start :
    uniform_cost gOcc (0, 0) (1, 1) = .ok ([.DOWN_RIGHT], (0, 1)) := by
  rfl

/-- The branch record produced by searching `gOcc` from the occupied
start `(0,0)`. -/
def branchOcc : Branch :=
  [((0, 1), ((1, 0), (0, 0), Action.RIGHT)),
   ((1, 0), ((1, 0), (0, 0), Action.DOWN)),
   ((1, 1), ((0, 1), (0, 0), Action.DOWN_RIGHT))]

/-- C9 (amended): `uniform_cost` checks neither bounds nor occupancy of
its endpoints before the search loop; a start lying on an occupied cell
is simply searched from: on `gOcc` the search phase runs to completion
from the occupied start `(0,0)` and reaches the goal. -/
theorem c9_amended_occupied_start_searched :
    plan gOcc (0, 0) (1, 1) = .ok (true, branchOcc) := by
  rfl

/-- C5 (counterexample): at the interior cell `(1,1)` of a free 3-by-3
grid all eight actions survive, and the returned list is the code's
candidate order UP, LEFT, RIGHT, DOWN, UP-LEFT, UP-RIGHT, DOWN-LEFT,
DOWN-RIGHT, which is not a subsequence of the order UP, DOWN, LEFT,
RIGHT, UP-LEFT, UP-RIGHT, DOWN-LEFT, DOWN-RIGHT stated by the claim. -/
theorem c5_counterexample_order :
    valid_actions free3 (1, 1) = .ok fullActionList ∧
    ¬ fullActionList.Sublist claimedOrder := by
  refine ⟨by rfl, fun h => ?_⟩
  have heq : fullActionList = claimedOrder := h.eq_of_length (by rfl)
  exact absurd heq (by decide)

/-- C6: `create_grid` paints an obstacle's footprint exactly when the
altitude lies strictly inside the obstacle's vertical extent inflated by
the safety distance (strict open interval on both sides); in particular
the obstacle centered at `(37, 12, 8)` with half-extents `(5, 5, 8)` is
painted at altitude `5` with safety distance `3` (its footprint covers
cell `(0,0)` of the resulting grid), and is not painted at altitude `20`
(every cell of that grid is `0`). -/
theorem c6_paint_interval :
    (∀ (data : List Obstacle) (altitude safety : ℚ) (o : Obstacle),
        o ∈ paintedObstacles data altitude safety ↔
          o ∈ data ∧ altitude > o.alt - o.dAlt - safety ∧
            altitude < o.alt + o.dAlt + safety) ∧
    create_gridAt [obstacle37] 5 3 0 0 = 1 ∧
    (∀ i j : ℕ, create_gridAt [obstacle37] 20 3 i j = 0) := by
  have hnm : northMin [obstacle37] = 32 := by norm_num [northMin, minD, obstacle37]
  have hnM : northMax [obstacle37] = 42 := by norm_num [northMax, maxD, obstacle37]
  have hem : eastMin [obstacle37] = 7 := by norm_num [eastMin, minD, obstacle37]
  have heM : eastMax [obstacle37] = 17 := by norm_num [eastMax, maxD, obstacle37]
  have hns : northSize [obstacle37] = 10 := by unfold northSize; rw [hnm, hnM]; rfl
  have hes : eastSize [obstacle37] = 10 := by unfold eastSize; rw [hem, heM]; rfl
  refine ⟨?_, ?_, ?_⟩
  · intro data altitude safety o
    simp [paintedObstacles, List.mem_filter, paintGuard]
  · have hpo : paintedObstacles [obstacle37] 5 3 = [obstacle37] := by
      norm_num [paintedObstacles, List.filter, paintGuard, obstacle37]
    have hfp : inFootprint [obstacle37] 3 obstacle37 0 0 := by
      unfold inFootprint
      rw [hnm, hem, hns, hes]
      norm_num [obstacle37, Int.ceil_eq_iff]
    rw [create_gridAt, if_pos]
    refine ⟨by rw [hns]; norm_num, by rw [hes]; norm_num, ?_⟩
    rw [hpo]
    simpa using hfp
  · intro i j
    have hpo : paintedObstacles [obstacle37] 20 3 = [] := by
      norm_num [paintedObstacles, List.filter, paintGuard, obstacle37]
    rw [create_gridAt, hpo]
    simp

/-! ## Analysis of `valid_actions` -/

/-- Selector pairing each action with its removal condition. -/
def condFor (cUP cDOWN cLEFT cRIGHT cUL cUR cDL cDR : Bool) : Action → Bool
  | .UP => cUP
  | .DOWN => cDOWN
  | .LEFT => cLEFT
  | .RIGHT => cRIGHT
  | .UP_LEFL => cUL
  | .UP_RIGHT => cUR
  | .DOWN_LEFT => cDL
  | .DOWN_RIGHT => cDR

/-- Erasing the flagged actions from the duplicate-free candidate list is
the same as filtering it. -/
theorem removeInvalid_eq_filter (cUP cDOWN cLEFT cRIGHT cUL cUR cDL cDR : Bool) :
    removeInvalid cUP cDOWN cLEFT cRIGHT cUL cUR cDL cDR =
      fullActionList.filter
        (fun a => !(condFor cUP cDOWN cLEFT cRIGHT cUL cUR cDL cDR a)) := by
  revert cUP cDOWN cLEFT cRIGHT cUL cUR cDL cDR
  decide

/-- `pyGet` only ever returns actual elements of the list. -/
theorem pyGet_mem {α : Type} {l : List α} {i : ℤ} {a : α}
    (h : pyGet l i = some a) : a ∈ l := by
  unfold pyGet at h
  split at h
  · exact List.get?_mem h
  · split at h
    · exact List.get?_mem h
    · cases h

/-- A successful nonnegative-index `pyGet` certifies the index bound. -/
theorem pyGet_bound {α : Type} {l : List α} {i : ℤ} {a : α}
    (h : pyGet l i = some a) (h0 : 0 ≤ i) : i < (l.length : ℤ) := by
  unfold pyGet at h
  split at h
  · omega
  · split at h
    · omega
    · cases h

/-- An in-range nonnegative index reads successfully. -/
theorem pyGet_inB {α : Type} {l : List α} {i : ℤ}
    (h0 : 0 ≤ i) (h1 : i < (l.length : ℤ)) : ∃ a, pyGet l i = some a := by
  unfold pyGet
  rw [if_pos ⟨h0, h1⟩]
  cases hq : l.get? i.toNat with
  | none =>
      have := List.get?_eq_none.mp hq
      omega
  | some a => exact ⟨a, rfl⟩

/-- Every value `gridGet` returns sits in some row of the grid. -/
theorem gridGet_mem {g : Grid} {i j : ℤ} {v : ℕ}
    (h : gridGet g i j = some v) : ∃ row ∈ g, v ∈ row := by
  unfold gridGet at h
  cases hr : pyGet g i with
  | none => rw [hr] at h; cases h
  | some row =>
      rw [hr] at h
      exact ⟨row, pyGet_mem hr, pyGet_mem h⟩

/-- On a rectangular grid, an in-bounds access succeeds. -/
theorem gridGet_inB {g : Grid} {i j : ℤ} (hrect : Rect g)
    (h0 : 0 ≤ i) (h1 : i < (rows g : ℤ)) (h2 : 0 ≤ j) (h3 : j < (cols g : ℤ)) :
    ∃ v, gridGet g i j = some v := by
  obtain ⟨row, hrow⟩ := pyGet_inB h0 h1
  have hmem : row ∈ g := pyGet_mem hrow
  have hlen : (row.length : ℤ) = (cols g : ℤ) := by
    exact_mod_cast congrArg Nat.cast (hrect row hmem)
  obtain ⟨v, hv⟩ := pyGet_inB h2 (by rw [hlen]; exact h3)
  exact ⟨v, by unfold gridGet; rw [hrow]; exact hv⟩

/-- An occupancy check that returns `false` had an in-range bound flag. -/
theorem occCheck_false_oob {g : Grid} {oob : Bool} {i j : ℤ}
    (h : occCheck g oob i j = .ok false) : oob = false := by
  unfold occCheck at h
  cases oob with
  | false => rfl
  | true => simp at h

/-- An occupancy check that returns `false` actually read a value other
than `1`. -/
theorem occCheck_false_val {g : Grid} {oob : Bool} {i j : ℤ}
    (h : occCheck g oob i j = .ok false) :
    ∃ v, gridGet g i j = some v ∧ v ≠ 1 := by
  unfold occCheck at h
  cases oob with
  | true => simp at h
  | false =>
      simp only [Bool.false_eq_true, if_false] at h
      cases hv : gridGet g i j with
      | none => rw [hv] at h; cases h
      | some v =>
          rw [hv] at h
          refine ⟨v, rfl, ?_⟩
          simp only [Except.ok.injEq] at h
          simpa using h

/-- A successful occupancy check succeeds at reading or short-circuits. -/
theorem occCheck_ok_of_some {g : Grid} {i j : ℤ} {v : ℕ} (oob : Bool)
    (h : gridGet g i j = some v) :
    occCheck g oob i j = .ok (oob || decide (v = 1)) := by
  unfold occCheck
  cases oob with
  | true => rfl
  | false => simp [h]

/-- Inversion of a successful `conds`: the eight occupancy checks all
succeeded with the returned flags. -/
theorem conds_inv {g : Grid} {node : Cell} {c1 c2 c3 c4 c5 c6 c7 c8 : Bool}
    (h : conds g node = .ok (c1, c2, c3, c4, c5, c6, c7, c8)) :
    occCheck g (decide (node.1 - 1 < 0)) (node.1 - 1) node.2 = .ok c1 ∧
    occCheck g (decide (node.1 + 1 > (rows g : ℤ) - 1)) (node.1 + 1) node.2 = .ok c2 ∧
    occCheck g (decide (node.2 - 1 < 0)) node.1 (node.2 - 1) = .ok c3 ∧
    occCheck g (decide (node.2 + 1 > (cols g : ℤ) - 1)) node.1 (node.2 + 1) = .ok c4 ∧
    occCheck g (decide (node.1 - 1 < 0) || decide (node.2 - 1 < 0))
      (node.1 - 1) (node.2 - 1) = .ok c5 ∧
    occCheck g (decide (node.1 - 1 < 0) || decide (node.2 + 1 > (cols g : ℤ) - 1))
      (node.1 - 1) (node.2 + 1) = .ok c6 ∧
    occCheck g (decide (node.1 + 1 > (rows g : ℤ) - 1) || decide (node.2 - 1 < 0))
      (node.1 + 1) (node.2 - 1) = .ok c7 ∧
    occCheck g (decide (node.1 + 1 > (rows g : ℤ) - 1) ||
        decide (node.2 + 1 > (cols g : ℤ) - 1)) (node.1 + 1) (node.2 + 1) = .ok c8 := by
  simp only [conds] at h
  cases h1 : occCheck g (decide (node.1 - 1 < 0)) (node.1 - 1) node.2 with
  | error e => rw [h1] at h; simp at h
  | ok b1 =>
  rw [h1] at h
  cases h2 : occCheck g (decide (node.1 + 1 > (rows g : ℤ) - 1)) (node.1 + 1) node.2 with
  | error e => rw [h2] at h; simp at h
  | ok b2 =>
  rw [h2] at h
  cases h3 : occCheck g (decide (node.2 - 1 < 0)) node.1 (node.2 - 1) with
  | error e => rw [h3] at h; simp at h
  | ok b3 =>
  rw [h3] at h
  cases h4 : occCheck g (decide (node.2 + 1 > (cols g : ℤ) - 1)) node.1 (node.2 + 1) with
  | error e => rw [h4] at h; simp at h
  | ok b4 =>
  rw [h4] at h
  cases h5 : occCheck g (decide (node.1 - 1 < 0) || decide (node.2 - 1 < 0))
      (node.1 - 1) (node.2 - 1) with
  | error e => rw [h5] at h; simp at h
  | ok b5 =>
  rw [h5] at h
  cases h6 : occCheck g (decide (node.1 - 1 < 0) || decide (node.2 + 1 > (cols g : ℤ) - 1))
      (node.1 - 1) (node.2 + 1) with
  | error e => rw [h6] at h; simp at h
  | ok b6 =>
  rw [h6] at h
  cases h7 : occCheck g (decide (node.1 + 1 > (rows g : ℤ) - 1) || decide (node.2 - 1 < 0))
      (node.1 + 1) (node.2 - 1) with
  | error e => rw [h7] at h; simp at h
  | ok b7 =>
  rw [h7] at h
  cases h8 : occCheck g (decide (node.1 + 1 > (rows g : ℤ) - 1) ||
      decide (node.2 + 1 > (cols g : ℤ) - 1)) (node.1 + 1) (node.2 + 1) with
  | error e => rw [h8] at h; simp at h
  | ok b8 =>
  rw [h8] at h
  simp only [Except.ok.injEq, Prod.mk.injEq] at h
  obtain ⟨rfl, rfl, rfl, rfl, rfl, rfl, rfl, rfl⟩ := h
  exact ⟨rfl, rfl, rfl, rfl, rfl, rfl, rfl, rfl⟩

/-- Inversion of a successful `valid_actions`: the conditions succeeded
and the result is the filtered candidate list. -/
theorem valid_actions_inv {g : Grid} {node : Cell} {l : List Action}
    (h : valid_actions g node = .ok l) :
    ∃ c1 c2 c3 c4 c5 c6 c7 c8 : Bool,
      conds g node = .ok (c1, c2, c3, c4, c5, c6, c7, c8) ∧
      l = fullActionList.filter (fun a => !(condFor c1 c2 c3 c4 c5 c6 c7 c8 a)) := by
  unfold valid_actions at h
  cases hc : conds g node with
  | error e => rw [hc] at h; cases h
  | ok t =>
      rw [hc] at h
      obtain ⟨c1, c2, c3, c4, c5, c6, c7, c8⟩ := t
      simp only [Except.ok.injEq] at h
      exact ⟨c1, c2, c3, c4, c5, c6, c7, c8, rfl,
        by rw [← h, removeInvalid_eq_filter]⟩

/-- A read value other than `1` is `0` on a binary grid. -/
theorem gridGet_zero {g : Grid} {i j : ℤ} {v : ℕ} (hbin : BinaryGrid g)
    (h : gridGet g i j = some v) (hne : v ≠ 1) : gridGet g i j = some 0 := by
  obtain ⟨row, hrow, hv⟩ := gridGet_mem h
  rcases hbin row hrow v hv with rfl | rfl
  · exact h
  · exact absurd rfl hne

/-- C5 (amended): the action list returned by `valid_actions` is always a
subsequence of the code's fixed candidate order UP, LEFT, RIGHT, DOWN,
UP-LEFT, UP-RIGHT, DOWN-LEFT, DOWN-RIGHT: the candidate list starts from
the full 8-action list in exactly that order and only removes entries. -/
theorem c5_amended_sublist (g : Grid) (node : Cell) (l : List Action)
    (hok : valid_actions g node = .ok l) : l.Sublist fullActionList := by
  obtain ⟨c1, c2, c3, c4, c5, c6, c7, c8, -, rfl⟩ := valid_actions_inv hok
  exact List.filter_sublist _

/-- C5 amended witness: the actions valid at the occupied corner of
`gOcc` form a subsequence of the candidate order. -/
theorem c5_amended_sublist_witness :
    List.Sublist [Action.RIGHT, Action.DOWN, Action.DOWN_RIGHT] fullActionList :=
  c5_amended_sublist gOcc (0, 0) [Action.RIGHT, Action.DOWN, Action.DOWN_RIGHT] (by rfl)

/-- C4: on a rectangular binary grid, every action returned by
`valid_actions` at an in-bounds cell has a destination that is inside the
grid bounds and whose grid value is `0` (free). -/
theorem c4_valid_actions_safe (g : Grid) (node : Cell) (l : List Action)
    (hbin : BinaryGrid g) (hin : inB g node)
    (hok : valid_actions g node = .ok l) :
    ∀ a ∈ l, inB g (applyDelta node a) ∧
      gridGet g (applyDelta node a).1 (applyDelta node a).2 = some 0 := by
  obtain ⟨c1, c2, c3, c4, c5, c6, c7, c8, hc, rfl⟩ := valid_actions_inv hok
  obtain ⟨o1, o2, o3, o4, o5, o6, o7, o8⟩ := conds_inv hc
  obtain ⟨hx0, hx1, hy0, hy1⟩ := hin
  intro a ha
  rw [List.mem_filter] at ha
  obtain ⟨-, hcond⟩ := ha
  cases a <;> simp only [condFor, Bool.not_eq_eq_eq_not, Bool.not_true] at hcond
  case UP =>
    rw [hcond] at o1
    have hoob := occCheck_false_oob o1
    simp only [Bool.or_eq_false_iff, decide_eq_false_iff_not] at hoob
    obtain ⟨v, hv, hne⟩ := occCheck_false_val o1
    refine ⟨by simp only [applyDelta, Action.delta, inB]; omega, ?_⟩
    simp only [applyDelta, Action.delta]
    rw [show node.1 + (-1 : ℤ) = node.1 - 1 from by ring,
      show node.2 + (0 : ℤ) = node.2 from by ring]
    exact gridGet_zero hbin hv hne
  case DOWN =>
    rw [hcond] at o2
    have hoob := occCheck_false_oob o2
    simp only [Bool.or_eq_false_iff, decide_eq_false_iff_not] at hoob
    obtain ⟨v, hv, hne⟩ := occCheck_false_val o2
    refine ⟨by simp only [applyDelta, Action.delta, inB]; omega, ?_⟩
    simp only [applyDelta, Action.delta]
    rw [show node.2 + (0 : ℤ) = node.2 from by ring]
    exact gridGet_zero hbin hv hne
  case LEFT =>
    rw [hcond] at o3
    have hoob := occCheck_false_oob o3
    simp only [Bool.or_eq_false_iff, decide_eq_false_iff_not] at hoob
    obtain ⟨v, hv, hne⟩ := occCheck_false_val o3
    refine ⟨by simp only [applyDelta, Action.delta, inB]; omega, ?_⟩
    simp only [applyDelta, Action.delta]
    rw [show node.1 + (0 : ℤ) = node.1 from by ring,
      show node.2 + (-1 : ℤ) = node.2 - 1 from by ring]
    exact gridGet_zero hbin hv hne
  case RIGHT =>
    rw [hcond] at o4
    have hoob := occCheck_false_oob o4
    simp only [Bool.or_eq_false_iff, decide_eq_false_iff_not] at hoob
    obtain ⟨v, hv, hne⟩ := occCheck_false_val o4
    refine ⟨by simp only [applyDelta, Action.delta, inB]; omega, ?_⟩
    simp only [applyDelta, Action.delta]
    rw [show node.1 + (0 : ℤ) = node.1 from by ring]
    exact gridGet_zero hbin hv hne
  case UP_LEFL =>
    rw [hcond] at o5
    have hoob := occCheck_false_oob o5
    simp only [Bool.or_eq_false_iff, decide_eq_false_iff_not] at hoob
    obtain ⟨v, hv, hne⟩ := occCheck_false_val o5
    refine ⟨by simp only [applyDelta, Action.delta, inB]; omega, ?_⟩
    simp only [applyDelta, Action.delta]
    rw [show node.1 + (-1 : ℤ) = node.1 - 1 from by ring,
      show node.2 + (-1 : ℤ) = node.2 - 1 from by ring]
    exact gridGet_zero hbin hv hne
  case UP_RIGHT =>
    rw [hcond] at o6
    have hoob := occCheck_false_oob o6
    simp only [Bool.or_eq_false_iff, decide_eq_false_iff_not] at hoob
    obtain ⟨v, hv, hne⟩ := occCheck_false_val o6
    refine ⟨by simp only [applyDelta, Action.delta, inB]; omega, ?_⟩
    simp only [applyDelta, Action.delta]
    rw [show node.1 + (-1 : ℤ) = node.1 - 1 from by ring]
    exact gridGet_zero hbin hv hne
  case DOWN_LEFT =>
    rw [hcond] at o7
    have hoob := occCheck_false_oob o7
    simp only [Bool.or_eq_false_iff, decide_eq_false_iff_not] at hoob
    obtain ⟨v, hv, hne⟩ := occCheck_false_val o7
    refine ⟨by simp only [applyDelta, Action.delta, inB]; omega, ?_⟩
    simp only [applyDelta, Action.delta]
    rw [show node.2 + (-1 : ℤ) = node.2 - 1 from by ring]
    exact gridGet_zero hbin hv hne
  case DOWN_RIGHT =>
    rw [hcond] at o8
    have hoob := occCheck_false_oob o8
    simp only [Bool.or_eq_false_iff, decide_eq_false_iff_not] at hoob
    obtain ⟨v, hv, hne⟩ := occCheck_false_val o8
    refine ⟨by simp only [applyDelta, Action.delta, inB]; omega, ?_⟩
    simp only [applyDelta, Action.delta]
    exact gridGet_zero hbin hv hne

/-- C4 witness: DOWN is returned at the start cell of the notebook grid,
and its destination is in bounds and free. -/
theorem c4_valid_actions_safe_witness :
    inB grid5 (applyDelta (0, 0) Action.DOWN) ∧
      gridGet grid5 (applyDelta (0, 0) Action.DOWN).1
        (applyDelta (0, 0) Action.DOWN).2 = some 0 :=
  c4_valid_actions_safe grid5 (0, 0) [Action.DOWN]
    (by decide) (by decide) (by rfl) Action.DOWN (by decide)

/-! ## C10: `valid_actions` never reads the current cell -/

/-- Overwrite the occupancy value of one cell of the grid. -/
def setCell (g : Grid) (i j : ℕ) (v : ℕ) : Grid :=
  g.set i ((g.getD i []).set j v)

/-- Overwriting a cell keeps the number of rows. -/
theorem rows_setCell (g : Grid) (i j v : ℕ) :
    rows (setCell g i j v) = rows g := by
  simp [rows, setCell]

/-- Overwriting a cell keeps the number of columns. -/
theorem cols_setCell (g : Grid) (i j v : ℕ) :
    cols (setCell g i j v) = cols g := by
  cases g with
  | nil => rfl
  | cons r t =>
      cases i with
      | zero => simp [cols, setCell]
      | succ k => rfl

/-- `pyGet` at a nonnegative index is unaffected by a `set` elsewhere. -/
theorem pyGet_set_ne {α : Type} {l : List α} {a : ℕ} {b : α} {i : ℤ}
    (h : i.toNat ≠ a) (h0 : 0 ≤ i) : pyGet (l.set a b) i = pyGet l i := by
  unfold pyGet
  simp only [List.length_set]
  split
  · simp [List.get?_eq_getElem?, List.getElem?_set_ne (Ne.symm h)]
  · split
    · exfalso; omega
    · rfl

/-- `pyGet` at the position just overwritten returns the new value. -/
theorem pyGet_set_self {α : Type} {l : List α} {b : α} {x : ℤ}
    (h0 : 0 ≤ x) (h1 : x < (l.length : ℤ)) :
    pyGet (l.set x.toNat b) x = some b := by
  unfold pyGet
  simp only [List.length_set]
  rw [if_pos ⟨h0, h1⟩]
  have hlt : x.toNat < l.length := by omega
  simp [List.get?_eq_getElem?, List.getElem?_set_eq_of_lt, hlt]

/-- `pyGet` of an in-range nonnegative index is the `getD` element. -/
theorem pyGet_eq_getD {α : Type} {l : List α} {x : ℤ} (d : α)
    (h0 : 0 ≤ x) (h1 : x < (l.length : ℤ)) :
    pyGet l x = some (l.getD x.toNat d) := by
  unfold pyGet
  rw [if_pos ⟨h0, h1⟩]
  have hlt : x.toNat < l.length := by omega
  cases hq : l.get? x.toNat with
  | none =>
      have := List.get?_eq_none.mp hq
      omega
  | some a =>
      have : l.getD x.toNat d = a := by
        simp [List.getD, List.get?_eq_getElem?] at hq ⊢
        simp [hq]
      rw [this]

/-- A `gridGet` at nonnegative indices different from the overwritten
cell is unchanged by `setCell`. -/
theorem gridGet_setCell {g : Grid} {x y i j : ℤ} {v : ℕ}
    (hx0 : 0 ≤ x) (hx1 : x < (rows g : ℤ)) (hy0 : 0 ≤ y)
    (hi0 : 0 ≤ i) (hj0 : 0 ≤ j) (hne : i ≠ x ∨ j ≠ y) :
    gridGet (setCell g x.toNat y.toNat v) i j = gridGet g i j := by
  unfold gridGet setCell
  by_cases hix : i = x
  · subst hix
    have hjy : j ≠ y := by
      rcases hne with h | h
      · exact absurd rfl h
      · exact h
    rw [pyGet_set_self hi0 (by simpa [rows] using hx1),
      pyGet_eq_getD [] hi0 (by simpa [rows] using hx1)]
    exact pyGet_set_ne (by omega) hj0
  · rw [pyGet_set_ne (by omega) hi0]

/-- Occupancy checks agree on grids whose read cells agree. -/
theorem occCheck_congr {g1 g2 : Grid} {oob : Bool} {i j : ℤ}
    (h : oob = false → gridGet g1 i j = gridGet g2 i j) :
    occCheck g1 oob i j = occCheck g2 oob i j := by
  cases oob with
  | true => rfl
  | false => unfold occCheck; rw [h rfl]

/-- C10: `valid_actions` never reads the occupancy value of the current
cell itself: overwriting the current cell's own value (the general form
of two grids identical except possibly at that cell) leaves the returned
action list unchanged, for every in-bounds cell; in particular a cell
that is itself occupied still yields every move whose destination is
free and in bounds. -/
theorem c10_valid_actions_ignores_own_cell (g : Grid) (node : Cell) (v : ℕ)
    (hin : inB g node) :
    valid_actions (setCell g node.1.toNat node.2.toNat v) node =
      valid_actions g node := by
  obtain ⟨hx0, hx1, hy0, hy1⟩ := hin
  have hrows : rows (setCell g node.1.toNat node.2.toNat v) = rows g :=
    rows_setCell g node.1.toNat node.2.toNat v
  have hcols : cols (setCell g node.1.toNat node.2.toNat v) = cols g :=
    cols_setCell g node.1.toNat node.2.toNat v
  have e1 : occCheck (setCell g node.1.toNat node.2.toNat v)
      (decide (node.1 - 1 < 0)) (node.1 - 1) node.2 =
      occCheck g (decide (node.1 - 1 < 0)) (node.1 - 1) node.2 := by
    refine occCheck_congr (fun hf => ?_)
    have hb : ¬(node.1 - 1 < 0) := by simpa using hf
    exact gridGet_setCell hx0 hx1 hy0 (by omega) hy0 (Or.inl (by omega))
  have e2 : occCheck (setCell g node.1.toNat node.2.toNat v)
      (decide (node.1 + 1 > (rows g : ℤ) - 1)) (node.1 + 1) node.2 =
      occCheck g (decide (node.1 + 1 > (rows g : ℤ) - 1)) (node.1 + 1) node.2 := by
    refine occCheck_congr (fun hf => ?_)
    exact gridGet_setCell hx0 hx1 hy0 (by omega) hy0 (Or.inl (by omega))
  have e3 : occCheck (setCell g node.1.toNat node.2.toNat v)
      (decide (node.2 - 1 < 0)) node.1 (node.2 - 1) =
      occCheck g (decide (node.2 - 1 < 0)) node.1 (node.2 - 1) := by
    refine occCheck_congr (fun hf => ?_)
    have hb : ¬(node.2 - 1 < 0) := by simpa using hf
    exact gridGet_setCell hx0 hx1 hy0 hx0 (by omega) (Or.inr (by omega))
  have e4 : occCheck (setCell g node.1.toNat node.2.toNat v)
      (decide (node.2 + 1 > (cols g : ℤ) - 1)) node.1 (node.2 + 1) =
      occCheck g (decide (node.2 + 1 > (cols g : ℤ) - 1)) node.1 (node.2 + 1) := by
    refine occCheck_congr (fun hf => ?_)
    exact gridGet_setCell hx0 hx1 hy0 hx0 (by omega) (Or.inr (by omega))
  have e5 : occCheck (setCell g node.1.toNat node.2.toNat v)
      (decide (node.1 - 1 < 0) || decide (node.2 - 1 < 0))
      (node.1 - 1) (node.2 - 1) =
      occCheck g (decide (node.1 - 1 < 0) || decide (node.2 - 1 < 0))
      (node.1 - 1) (node.2 - 1) := by
    refine occCheck_congr (fun hf => ?_)
    simp only [Bool.or_eq_false_iff, decide_eq_false_iff_not] at hf
    exact gridGet_setCell hx0 hx1 hy0 (by omega) (by omega) (Or.inl (by omega))
  have e6 : occCheck (setCell g node.1.toNat node.2.toNat v)
      (decide (node.1 - 1 < 0) || decide (node.2 + 1 > (cols g : ℤ) - 1))
      (node.1 - 1) (node.2 + 1) =
      occCheck g (decide (node.1 - 1 < 0) || decide (node.2 + 1 > (cols g : ℤ) - 1))
      (node.1 - 1) (node.2 + 1) := by
    refine occCheck_congr (fun hf => ?_)
    simp only [Bool.or_eq_false_iff, decide_eq_false_iff_not] at hf
    exact gridGet_setCell hx0 hx1 hy0 (by omega) (by omega) (Or.inl (by omega))
  have e7 : occCheck (setCell g node.1.toNat node.2.toNat v)
      (decide (node.1 + 1 > (rows g : ℤ) - 1) || decide (node.2 - 1 < 0))
      (node.1 + 1) (node.2 - 1) =
      occCheck g (decide (node.1 + 1 > (rows g : ℤ) - 1) || decide (node.2 - 1 < 0))
      (node.1 + 1) (node.2 - 1) := by
    refine occCheck_congr (fun hf => ?_)
    simp only [Bool.or_eq_false_iff, decide_eq_false_iff_not] at hf
    exact gridGet_setCell hx0 hx1 hy0 (by omega) (by omega) (Or.inl (by omega))
  have e8 : occCheck (setCell g node.1.toNat node.2.toNat v)
      (decide (node.1 + 1 > (rows g : ℤ) - 1) ||
        decide (node.2 + 1 > (cols g : ℤ) - 1)) (node.1 + 1) (node.2 + 1) =
      occCheck g (decide (node.1 + 1 > (rows g : ℤ) - 1) ||
        decide (node.2 + 1 > (cols g : ℤ) - 1)) (node.1 + 1) (node.2 + 1) := by
    refine occCheck_congr (fun hf => ?_)
    exact gridGet_setCell hx0 hx1 hy0 (by omega) (by omega) (Or.inl (by omega))
  have hc : conds (setCell g node.1.toNat node.2.toNat v) node = conds g node := by
    simp only [conds, hrows, hcols]
    rw [e1, e2, e3, e4, e5, e6, e7, e8]
  unfold valid_actions
  rw [hc]

/-- C10 witness: occupying the corner cell of the free 2-by-2 grid does
not change the actions valid at that corner. -/
theorem c10_witness :
    valid_actions (setCell g2x2 0 0 1) (0, 0) = valid_actions g2x2 (0, 0) :=
  c10_valid_actions_ignores_own_cell g2x2 (0, 0) 1 (by decide)

/-! ## Invariants of the search loop -/

/-- Lookup scans past an append when the key is found early. -/
theorem lookupCell_append_some {b : Branch} {n : Cell} {v : Cost × Cell × Action}
    (l : Branch) (h : lookupCell b n = some v) :
    lookupCell (b ++ l) n = some v := by
  induction b with
  | nil => cases h
  | cons e rest ih =>
      obtain ⟨k, w⟩ := e
      unfold lookupCell at h ⊢
      split at h
      · simp_all
      · simp_all [ih h]

/-- Lookup falls through an absent prefix. -/
theorem lookupCell_append_none {b : Branch} {n : Cell}
    (l : Branch) (h : lookupCell b n = none) :
    lookupCell (b ++ l) n = lookupCell l n := by
  induction b with
  | nil => rfl
  | cons e rest ih =>
      obtain ⟨k, w⟩ := e
      unfold lookupCell at h
      split at h
      · cases h
      · next hk =>
          simp only [List.cons_append, lookupCell]
          rw [if_neg hk]
          exact ih h

/-- A key outside the key set has no binding. -/
theorem lookupCell_not_mem {b : Branch} {n : Cell}
    (h : n ∉ b.map Prod.fst) : lookupCell b n = none := by
  induction b with
  | nil => rfl
  | cons e rest ih =>
      obtain ⟨k, w⟩ := e
      simp only [List.map_cons, List.mem_cons] at h
      push_neg at h
      unfold lookupCell
      rw [if_neg (fun hh => h.1 hh.symm)]
      exact ih h.2

/-- The branch-record invariant needed to replay a retrace: every entry
records the edge it came from, and its cost chains to its parent's. -/
def GoodBranch (s : Cell) (b : Branch) : Prop :=
  ∀ n c pn pa, lookupCell b n = some (c, pn, pa) →
    applyDelta pn pa = n ∧
    (pn = s → c = pa.cost) ∧
    (pn ≠ s → ∃ cp qn qa, lookupCell b pn = some (cp, qn, qa) ∧
      c = Cost.add cp pa.cost)

/-- The part of the loop invariant preserved by every inner step:
queue entries are cost-consistent with the branch record, the branch is
a good record with unique keys, and recorded keys were marked visited. -/
def MidInv (s : Cell) (st : SState) : Prop :=
  (∀ e ∈ st.queue, (e.1 = s ∧ e.2 = ((0, 0) : Cost)) ∨
    ∃ pn pa, lookupCell st.branch e.1 = some (e.2, pn, pa)) ∧
  GoodBranch s st.branch ∧
  (st.branch.map Prod.fst).Nodup ∧
  (∀ k ∈ st.branch.map Prod.fst, k ∈ st.visited)

/-- Adding the zero cost is the identity. -/
theorem Cost.zero_add (c : Cost) : Cost.add (0, 0) c = c := by
  simp [Cost.add]

/-- Unfolding one iteration of the search loop. -/
theorem uc_loop_succ (g : Grid) (goal : Cell) (fuel : ℕ) (st : SState) :
    uc_loop g goal (fuel + 1) st =
      match st.queue with
      | [] => .ok (false, st.branch)
      | (current, ccost) :: rest =>
        if current = goal then .ok (true, st.branch)
        else
          match valid_actions g current with
          | .error e => .error e
          | .ok acts =>
              uc_loop g goal fuel (expand current ccost acts { st with queue := rest }) :=
  rfl

/-- Unfolding one iteration of the retrace loop. -/
theorem retrace_succ (b : Branch) (start : Cell) (fuel : ℕ) (n : Cell) :
    retrace b start (fuel + 1) n =
      match lookupCell b n with
      | none => .error "KeyError"
      | some (_, p, a) =>
        if p = start then .ok [a]
        else
          match retrace b start fuel p with
          | .error e => .error e
          | .ok l => .ok (l ++ [a]) :=
  rfl

/-- One inner step preserves the mid invariant, preserves the backing of
the dequeued node, grows the visited set, and leaves the step's own
destination visited. -/
theorem ucStep_midInv (s current : Cell) (ccost : Cost) (acts : List Action)
    (st : SState) (a : Action) (hmid : MidInv s st)
    (hcur : (current = s ∧ ccost = ((0, 0) : Cost)) ∨
      ∃ pn pa, lookupCell st.branch current = some (ccost, pn, pa))
    (hsafe : current = s → ccost = ((0, 0) : Cost) ∨
      ∀ a' ∈ acts, applyDelta s a' ∈ st.visited)
    (ha : a ∈ acts) :
    MidInv s (ucStep current ccost st a) ∧
    ((current = s ∧ ccost = ((0, 0) : Cost)) ∨
      ∃ pn pa, lookupCell (ucStep current ccost st a).branch current =
        some (ccost, pn, pa)) ∧
    (∀ x ∈ st.visited, x ∈ (ucStep current ccost st a).visited) ∧
    applyDelta current a ∈ (ucStep current ccost st a).visited := by
  by_cases hv : applyDelta current a ∈ st.visited
  · simp only [ucStep, if_pos hv]
    exact ⟨hmid, hcur, fun x hx => hx, hv⟩
  · simp only [ucStep, if_neg hv]
    obtain ⟨hq, hgb, hnd, hkv⟩ := hmid
    have hfresh : applyDelta current a ∉ st.branch.map Prod.fst :=
      fun hmem => hv (hkv _ hmem)
    have hnone : lookupCell st.branch (applyDelta current a) = none :=
      lookupCell_not_mem hfresh
    have lnew : lookupCell
        (st.branch ++ [(applyDelta current a,
          (Cost.add ccost a.cost, current, a))]) (applyDelta current a) =
        some (Cost.add ccost a.cost, current, a) := by
      rw [lookupCell_append_none _ hnone]
      simp [lookupCell]
    have linv : ∀ q v, lookupCell
        (st.branch ++ [(applyDelta current a,
          (Cost.add ccost a.cost, current, a))]) q = some v →
        lookupCell st.branch q = some v ∨
          (q = applyDelta current a ∧ v = (Cost.add ccost a.cost, current, a)) := by
      intro q v hl
      cases hb : lookupCell st.branch q with
      | some v0 =>
          rw [lookupCell_append_some _ hb] at hl
          injection hl with hv0
          subst hv0
          exact Or.inl rfl
      | none =>
          rw [lookupCell_append_none _ hb] at hl
          unfold lookupCell at hl
          split at hl
          · next heq =>
              cases hl
              exact Or.inr ⟨heq.symm, rfl⟩
          · cases hl
    refine ⟨⟨?_, ?_, ?_, ?_⟩, ?_, ?_, ?_⟩
    · -- queue consistency
      intro e he
      simp only [List.mem_append, List.mem_singleton] at he
      rcases he with he | he
      · rcases hq e he with h0 | ⟨pn, pa, hl⟩
        · exact Or.inl h0
        · exact Or.inr ⟨pn, pa, lookupCell_append_some _ hl⟩
      · subst he
        exact Or.inr ⟨current, a, lnew⟩
    · -- good branch
      intro q c pn pa hl
      rcases linv q (c, pn, pa) hl with hold | ⟨rfl, hvw⟩
      · obtain ⟨h1, h2, h3⟩ := hgb q c pn pa hold
        refine ⟨h1, h2, fun hne => ?_⟩
        obtain ⟨cp, qn, qa, hlp, hcc⟩ := h3 hne
        exact ⟨cp, qn, qa, lookupCell_append_some _ hlp, hcc⟩
      · injection hvw with h1 h23
        injection h23 with h2 h3
        subst c
        subst pn
        subst pa
        refine ⟨rfl, ?_, ?_⟩
        · intro hcs
          rcases hsafe hcs with rfl | hall
          · exact Cost.zero_add a.cost
          · exact absurd (hall a ha) (hcs ▸ hv)
        · intro hne
          rcases hcur with ⟨hcs, _⟩ | ⟨pn', pa', hl'⟩
          · exact absurd hcs hne
          · exact ⟨ccost, pn', pa', lookupCell_append_some _ hl', rfl⟩
    · -- key uniqueness
      rw [List.map_append, List.nodup_append]
      refine ⟨hnd, by simp, ?_⟩
      intro x hx hx'
      simp only [List.map_cons, List.map_nil, List.mem_singleton] at hx'
      exact hfresh (hx' ▸ hx)
    · -- keys are visited
      intro k hk
      rw [List.map_append] at hk
      rcases List.mem_append.mp hk with hk | hk
      · exact List.mem_cons_of_mem _ (hkv k hk)
      · simp only [List.map_cons, List.map_nil, List.mem_singleton] at hk
        exact hk ▸ List.mem_cons_self _ _
    · -- dequeued node still backed
      rcases hcur with h0 | ⟨pn, pa, hl⟩
      · exact Or.inl h0
      · exact Or.inr ⟨pn, pa, lookupCell_append_some _ hl⟩
    · exact fun x hx => List.mem_cons_of_mem _ hx
    · exact List.mem_cons_self _ _

/-- The whole inner loop preserves the mid invariant and marks every
processed destination visited. -/
theorem expand_midInv (s current : Cell) (ccost : Cost) (acts : List Action) :
    ∀ (l : List Action), (∀ x ∈ l, x ∈ acts) → ∀ st : SState, MidInv s st →
    ((current = s ∧ ccost = ((0, 0) : Cost)) ∨
      ∃ pn pa, lookupCell st.branch current = some (ccost, pn, pa)) →
    (current = s → ccost = ((0, 0) : Cost) ∨
      ∀ a' ∈ acts, applyDelta s a' ∈ st.visited) →
    MidInv s (l.foldl (ucStep current ccost) st) ∧
    (∀ x ∈ st.visited, x ∈ (l.foldl (ucStep current ccost) st).visited) ∧
    (∀ a ∈ l, applyDelta current a ∈ (l.foldl (ucStep current ccost) st).visited) := by
  intro l
  induction l with
  | nil =>
      intro _ st hmid _ _
      exact ⟨hmid, fun x hx => hx, by simp⟩
  | cons a l' ih =>
      intro hsub st hmid hcur hsafe
      have hstep := ucStep_midInv s current ccost acts st a hmid hcur hsafe
        (hsub a (List.mem_cons_self a l'))
      obtain ⟨hmid1, hcur1, hmono1, hdest1⟩ := hstep
      have hsafe1 : current = s → ccost = ((0, 0) : Cost) ∨
          ∀ a' ∈ acts, applyDelta s a' ∈ (ucStep current ccost st a).visited :=
        fun hcs => (hsafe hcs).imp id (fun hall a' ha' => hmono1 _ (hall a' ha'))
      have hrest := ih (fun x hx => hsub x (List.mem_cons_of_mem a hx))
        (ucStep current ccost st a) hmid1 hcur1 hsafe1
      obtain ⟨hmid2, hmono2, hdest2⟩ := hrest
      simp only [List.foldl_cons]
      refine ⟨hmid2, fun x hx => hmono2 x (hmono1 x hx), ?_⟩
      intro b hb
      rcases List.mem_cons.mp hb with rfl | hb
      · exact hmono2 _ hdest1
      · exact hdest2 b hb

/-- The search loop preserves the invariant and its final branch record
is good, whether the search succeeded or exhausted the frontier. -/
theorem uc_loop_good (g : Grid) (s goal : Cell) : ∀ (fuel : ℕ) (st : SState),
    MidInv s st →
    (∀ acts, valid_actions g s = .ok acts → ∀ a ∈ acts, applyDelta s a ∈ st.visited) →
    ∀ fb br, uc_loop g goal fuel st = .ok (fb, br) → GoodBranch s br := by
  intro fuel
  induction fuel with
  | zero =>
      intro st _ _ fb br h
      cases h
  | succ f ih =>
      intro st hmid hstart fb br h
      rw [uc_loop_succ] at h
      cases hq : st.queue with
      | nil =>
          rw [hq] at h
          injection h with h'
          injection h' with h1 h2
          exact h2 ▸ hmid.2.1
      | cons e rest =>
          obtain ⟨current, ccost⟩ := e
          rw [hq] at h
          dsimp only at h
          by_cases hg : current = goal
          · rw [if_pos hg] at h
            injection h with h'
            injection h' with h1 h2
            exact h2 ▸ hmid.2.1
          · rw [if_neg hg] at h
            cases hva : valid_actions g current with
            | error e0 => rw [hva] at h; cases h
            | ok acts =>
                rw [hva] at h
                obtain ⟨hqOK, hgb, hnd, hkv⟩ := hmid
                have hmid0 : MidInv s { st with queue := rest } :=
                  ⟨fun e he => hqOK e (hq ▸ List.mem_cons_of_mem _ he), hgb, hnd, hkv⟩
                have hcur0 : (current = s ∧ ccost = ((0, 0) : Cost)) ∨
                    ∃ pn pa, lookupCell st.branch current = some (ccost, pn, pa) :=
                  hqOK (current, ccost) (hq ▸ List.mem_cons_self _ _)
                have hsafe0 : current = s → ccost = ((0, 0) : Cost) ∨
                    ∀ a' ∈ acts, applyDelta s a' ∈ ({ st with queue := rest } : SState).visited :=
                  fun hcs => Or.inr (hstart acts (hcs ▸ hva))
                obtain ⟨hmid1, hmono1, _⟩ := expand_midInv s current ccost acts acts
                  (fun x hx => hx) { st with queue := rest } hmid0 hcur0 hsafe0
                refine ih (expand current ccost acts { st with queue := rest })
                  hmid1 ?_ fb br h
                intro acts' hva' a ha'
                exact hmono1 _ (hstart acts' hva' a ha')

/-- The branch record returned by any successful `plan` is good. -/
theorem plan_good (g : Grid) (s goal : Cell) (fb : Bool) (br : Branch)
    (h : plan g s goal = .ok (fb, br)) : GoodBranch s br := by
  unfold plan at h
  rw [show fuelFor g = rows g * cols g + 1 + 1 from rfl, uc_loop_succ] at h
  dsimp only at h
  by_cases hg : s = goal
  · rw [if_pos hg] at h
    injection h with h'
    injection h' with h1 h2
    rw [← h2]
    intro n c pn pa hl
    simp [lookupCell] at hl
  · rw [if_neg hg] at h
    cases hva : valid_actions g s with
    | error e0 => rw [hva] at h; cases h
    | ok acts =>
        rw [hva] at h
        have hmid0 : MidInv s ⟨[], [], []⟩ :=
          ⟨by simp, fun n c pn pa hl => by simp [lookupCell] at hl, by simp, by simp⟩
        obtain ⟨hmid1, _, hdests⟩ := expand_midInv s s (0, 0) acts acts
          (fun x hx => hx) ⟨[], [], []⟩ hmid0 (Or.inl ⟨rfl, rfl⟩) (fun _ => Or.inl rfl)
        apply uc_loop_good g s goal _ _ hmid1 ?_ fb br h
        intro acts' hva' a ha'
        rw [hva] at hva'
        injection hva' with he
        subst he
        exact hdests a ha'

/-- Replaying a successful retrace along a good branch record yields a
path that ends at the looked-up node and whose cost sum is the recorded
cumulative cost. -/
theorem retrace_correct {b : Branch} {s : Cell} (hgb : GoodBranch s b) :
    ∀ (fuel : ℕ) (n : Cell) (path : List Action),
      retrace b s fuel n = .ok path →
      ∀ c pn pa, lookupCell b n = some (c, pn, pa) →
      pathEnd s path = n ∧ costSum path = c := by
  intro fuel
  induction fuel with
  | zero => intro n path h; cases h
  | succ f ih =>
      intro n path h c pn pa hl
      rw [retrace_succ, hl] at h
      dsimp only at h
      obtain ⟨h1, h2, h3⟩ := hgb n c pn pa hl
      by_cases hp : pn = s
      · rw [if_pos hp] at h
        injection h with h'
        subst h'
        constructor
        · rw [show pathEnd s [pa] = applyDelta s pa from rfl, ← hp]
          exact h1
        · rw [show costSum [pa] = Cost.add (0, 0) pa.cost from rfl,
            Cost.zero_add, h2 hp]
      · rw [if_neg hp] at h
        cases hre : retrace b s f pn with
        | error e0 => rw [hre] at h; cases h
        | ok l =>
            rw [hre] at h
            dsimp only at h
            injection h with h'
            subst h'
            obtain ⟨cp, qn, qa, hlp, hcc⟩ := h3 hp
            obtain ⟨he, hc⟩ := ih pn l hre cp qn qa hlp
            constructor
            · have hfl : pathEnd s (l ++ [pa]) = applyDelta (pathEnd s l) pa := by
                simp [pathEnd]
              rw [hfl, he]
              exact h1
            · have hfl : costSum (l ++ [pa]) = Cost.add (costSum l) pa.cost := by
                simp [costSum]
              rw [hfl, hc]
              exact hcc.symm

/-- C8: whenever the search phase succeeds (`found = true`) and the
reconstruction phase returns, the reconstructed action sequence really
leads from `start` to `goal` (applying each delta in order) and the
returned total cost is exactly the sum of the costs of its actions. -/
theorem c8_reconstruct_consistent (g : Grid) (s t : Cell) (br : Branch)
    (p : List Action) (c : Cost)
    (hplan : plan g s t = .ok (true, br))
    (hrec : reconstruct true br s t = .ok (p, c)) :
    pathEnd s p = t ∧ costSum p = c := by
  have hgb := plan_good g s t true br hplan
  unfold reconstruct at hrec
  rw [if_pos rfl] at hrec
  cases hl : lookupCell br t with
  | none => rw [hl] at hrec; cases hrec
  | some v =>
      obtain ⟨pcost, pn, pa⟩ := v
      rw [hl] at hrec
      dsimp only at hrec
      cases hre : retrace br s (br.length + 1) t with
      | error e0 => rw [hre] at hrec; cases hrec
      | ok p' =>
          rw [hre] at hrec
          dsimp only at hrec
          injection hrec with h'
          injection h' with hp hc
          subst hp
          subst hc
          exact retrace_correct hgb _ t p' hre pcost pn pa hl

/-- C8 witness: the reconstructed diagonal path on the free 2-by-2 grid
ends at the goal and costs the sum of its action costs. -/
theorem c8_witness :
    pathEnd (0, 0) [Action.DOWN_RIGHT] = ((1, 1) : Cell) ∧
      costSum [Action.DOWN_RIGHT] = ((0, 1) : Cost) :=
  c8_reconstruct_consistent g2x2 (0, 0) (1, 1) branch2 [Action.DOWN_RIGHT] (0, 1)
    (by rfl) (by rfl)

/-! ## C7: unreachable goals -/

/-- Reachability along the moves the search itself can take: the
reflexive-transitive closure of the `valid_actions` successor relation
(destinations are in bounds and free by C4). -/
inductive Reach (g : Grid) (s : Cell) : Cell → Prop where
  | refl : Reach g s s
  | step {c : Cell} {acts : List Action} {a : Action} :
      Reach g s c → valid_actions g c = .ok acts → a ∈ acts →
      Reach g s (applyDelta c a)

/-- Destinations of returned actions stay in bounds (bounds part of the
C4 property, shared by the termination argument). -/
theorem valid_actions_dest_inB (g : Grid) (node : Cell) (l : List Action)
    (hin : inB g node) (hok : valid_actions g node = .ok l) :
    ∀ a ∈ l, inB g (applyDelta node a) := by
  obtain ⟨c1, c2, c3, c4, c5, c6, c7, c8, hc, rfl⟩ := valid_actions_inv hok
  obtain ⟨o1, o2, o3, o4, o5, o6, o7, o8⟩ := conds_inv hc
  obtain ⟨hx0, hx1, hy0, hy1⟩ := hin
  intro a ha
  rw [List.mem_filter] at ha
  obtain ⟨-, hcond⟩ := ha
  cases a <;> simp only [condFor, Bool.not_eq_eq_eq_not, Bool.not_true] at hcond
  case UP =>
    rw [hcond] at o1
    have hoob := occCheck_false_oob o1
    simp only [Bool.or_eq_false_iff, decide_eq_false_iff_not] at hoob
    simp only [applyDelta, Action.delta, inB]
    omega
  case DOWN =>
    rw [hcond] at o2
    have hoob := occCheck_false_oob o2
    simp only [Bool.or_eq_false_iff, decide_eq_false_iff_not] at hoob
    simp only [applyDelta, Action.delta, inB]
    omega
  case LEFT =>
    rw [hcond] at o3
    have hoob := occCheck_false_oob o3
    simp only [Bool.or_eq_false_iff, decide_eq_false_iff_not] at hoob
    simp only [applyDelta, Action.delta, inB]
    omega
  case RIGHT =>
    rw [hcond] at o4
    have hoob := occCheck_false_oob o4
    simp only [Bool.or_eq_false_iff, decide_eq_false_iff_not] at hoob
    simp only [applyDelta, Action.delta, inB]
    omega
  case UP_LEFL =>
    rw [hcond] at o5
    have hoob := occCheck_false_oob o5
    simp only [Bool.or_eq_false_iff, decide_eq_false_iff_not] at hoob
    simp only [applyDelta, Action.delta, inB]
    omega
  case UP_RIGHT =>
    rw [hcond] at o6
    have hoob := occCheck_false_oob o6
    simp only [Bool.or_eq_false_iff, decide_eq_false_iff_not] at hoob
    simp only [applyDelta, Action.delta, inB]
    omega
  case DOWN_LEFT =>
    rw [hcond] at o7
    have hoob := occCheck_false_oob o7
    simp only [Bool.or_eq_false_iff, decide_eq_false_iff_not] at hoob
    simp only [applyDelta, Action.delta, inB]
    omega
  case DOWN_RIGHT =>
    rw [hcond] at o8
    have hoob := occCheck_false_oob o8
    simp only [Bool.or_eq_false_iff, decide_eq_false_iff_not] at hoob
    simp only [applyDelta, Action.delta, inB]
    omega

/-- An occupancy check whose read is guaranteed succeeds. -/
theorem occCheck_isOk {g : Grid} {oob : Bool} {i j : ℤ}
    (h : oob = false → ∃ v, gridGet g i j = some v) :
    ∃ b, occCheck g oob i j = .ok b := by
  cases oob with
  | false =>
      obtain ⟨v, hv⟩ := h rfl
      exact ⟨decide (v = 1), by simp [occCheck, hv]⟩
  | true => exact ⟨true, rfl⟩

/-- On a rectangular grid, `valid_actions` never raises from an
in-bounds cell. -/
theorem valid_actions_total (g : Grid) (node : Cell)
    (hrect : Rect g) (hin : inB g node) :
    ∃ acts, valid_actions g node = .ok acts := by
  obtain ⟨hx0, hx1, hy0, hy1⟩ := hin
  obtain ⟨b1, h1⟩ := @occCheck_isOk g (decide (node.1 - 1 < 0)) (node.1 - 1) (node.2)
    (fun hf => by
      have hb : ¬(node.1 - 1 < 0) := by simpa using hf
      exact gridGet_inB hrect (by omega) (by omega) hy0 hy1)
  obtain ⟨b2, h2⟩ := @occCheck_isOk g
    (decide (node.1 + 1 > (rows g : ℤ) - 1))
    (node.1 + 1) (node.2) (fun hf => by
      have hb : ¬(node.1 + 1 > (rows g : ℤ) - 1) := by simpa using hf
      exact gridGet_inB hrect (by omega) (by omega) hy0 hy1)
  obtain ⟨b3, h3⟩ := @occCheck_isOk g (decide (node.2 - 1 < 0)) (node.1) (node.2 - 1)
    (fun hf => by
      have hb : ¬(node.2 - 1 < 0) := by simpa using hf
      exact gridGet_inB hrect hx0 hx1 (by omega) (by omega))
  obtain ⟨b4, h4⟩ := @occCheck_isOk g
    (decide (node.2 + 1 > (cols g : ℤ) - 1))
    (node.1) (node.2 + 1) (fun hf => by
      have hb : ¬(node.2 + 1 > (cols g : ℤ) - 1) := by simpa using hf
      exact gridGet_inB hrect hx0 hx1 (by omega) (by omega))
  obtain ⟨b5, h5⟩ := @occCheck_isOk g
    (decide (node.1 - 1 < 0) || decide (node.2 - 1 < 0))
    (node.1 - 1) (node.2 - 1) (fun hf => by
      simp only [Bool.or_eq_false_iff, decide_eq_false_iff_not] at hf
      exact gridGet_inB hrect (by omega) (by omega) (by omega) (by omega))
  obtain ⟨b6, h6⟩ := @occCheck_isOk g
    (decide (node.1 - 1 < 0) || decide (node.2 + 1 > (cols g : ℤ) - 1))
    (node.1 - 1) (node.2 + 1) (fun hf => by
      simp only [Bool.or_eq_false_iff, decide_eq_false_iff_not] at hf
      exact gridGet_inB hrect (by omega) (by omega) (by omega) (by omega))
  obtain ⟨b7, h7⟩ := @occCheck_isOk g
    (decide (node.1 + 1 > (rows g : ℤ) - 1) || decide (node.2 - 1 < 0))
    (node.1 + 1) (node.2 - 1) (fun hf => by
      simp only [Bool.or_eq_false_iff, decide_eq_false_iff_not] at hf
      exact gridGet_inB hrect (by omega) (by omega) (by omega) (by omega))
  obtain ⟨b8, h8⟩ := @occCheck_isOk g
    (decide (node.1 + 1 > (rows g : ℤ) - 1) || decide (node.2 + 1 > (cols g : ℤ) - 1))
    (node.1 + 1) (node.2 + 1) (fun hf => by
      simp only [Bool.or_eq_false_iff, decide_eq_false_iff_not] at hf
      exact gridGet_inB hrect (by omega) (by omega) (by omega) (by omega))
  refine ⟨removeInvalid b1 b2 b3 b4 b5 b6 b7 b8, ?_⟩
  have hc : conds g node = .ok (b1, b2, b3, b4, b5, b6, b7, b8) := by
    simp only [conds, h1, h2, h3, h4, h5, h6, h7, h8]
  unfold valid_actions
  rw [hc]

/-- A duplicate-free list of in-bounds cells is no longer than the cell
count of the grid. -/
theorem visited_card_le {g : Grid} {l : List Cell} (hnd : l.Nodup)
    (hin : ∀ n ∈ l, inB g n) : l.length ≤ rows g * cols g := by
  classical
  have h1 : l.toFinset.card = l.length := List.toFinset_card_of_nodup hnd
  have h2 : l.toFinset ⊆
      (Finset.Icc (0 : ℤ) ((rows g : ℤ) - 1)) ×ˢ
        (Finset.Icc (0 : ℤ) ((cols g : ℤ) - 1)) := by
    intro x hx
    obtain ⟨a1, a2, a3, a4⟩ := hin x (List.mem_toFinset.mp hx)
    simp only [Finset.mem_product, Finset.mem_Icc]
    omega
  have h3 := Finset.card_le_card h2
  have e1 : ((rows g : ℤ) - 1 + 1 - 0).toNat = rows g := by omega
  have e2 : ((cols g : ℤ) - 1 + 1 - 0).toNat = cols g := by omega
  rw [Finset.card_product, Int.card_Icc, Int.card_Icc, e1, e2, h1] at h3
  exact h3

/-- Expanding a reachable in-bounds node keeps every frontier node
reachable and in bounds, keeps the visited list duplicate-free and in
bounds, and grows the queue and the visited list by the same count. -/
theorem expand_reach (g : Grid) (s current : Cell) (ccost : Cost)
    (hcurR : Reach g s current) (hcurB : inB g current)
    (acts : List Action) (hacts : valid_actions g current = .ok acts) :
    ∀ (l : List Action), (∀ x ∈ l, x ∈ acts) → ∀ st : SState,
    (∀ e ∈ st.queue, Reach g s e.1 ∧ inB g e.1) →
    st.visited.Nodup →
    (∀ n ∈ st.visited, inB g n) →
    (∀ e ∈ (l.foldl (ucStep current ccost) st).queue, Reach g s e.1 ∧ inB g e.1) ∧
    (l.foldl (ucStep current ccost) st).visited.Nodup ∧
    (∀ n ∈ (l.foldl (ucStep current ccost) st).visited, inB g n) ∧
    ∃ k, (l.foldl (ucStep current ccost) st).queue.length = st.queue.length + k ∧
      (l.foldl (ucStep current ccost) st).visited.length = st.visited.length + k := by
  intro l
  induction l with
  | nil =>
      intro _ st hQ hnd hvB
      exact ⟨hQ, hnd, hvB, 0, rfl, rfl⟩
  | cons a l' ih =>
      intro hsub st hQ hnd hvB
      simp only [List.foldl_cons]
      by_cases hv : applyDelta current a ∈ st.visited
      · have hst1 : ucStep current ccost st a = st := by
          simp [ucStep, if_pos hv]
        rw [hst1]
        exact ih (fun x hx => hsub x (List.mem_cons_of_mem a hx)) st hQ hnd hvB
      · have hst1 : ucStep current ccost st a =
            ⟨st.queue ++ [(applyDelta current a, Cost.add ccost a.cost)],
             applyDelta current a :: st.visited,
             st.branch ++ [(applyDelta current a,
               (Cost.add ccost a.cost, current, a))]⟩ := by
          simp [ucStep, if_neg hv]
        rw [hst1]
        have hreach : Reach g s (applyDelta current a) :=
          Reach.step hcurR hacts (hsub a (List.mem_cons_self a l'))
        have hinb : inB g (applyDelta current a) :=
          valid_actions_dest_inB g current acts hcurB hacts a
            (hsub a (List.mem_cons_self a l'))
        have hQ1 : ∀ e ∈ st.queue ++ [(applyDelta current a, Cost.add ccost a.cost)],
            Reach g s e.1 ∧ inB g e.1 := by
          intro e he
          rcases List.mem_append.mp he with he | he
          · exact hQ e he
          · simp only [List.mem_singleton] at he
            subst he
            exact ⟨hreach, hinb⟩
        have hnd1 : (applyDelta current a :: st.visited).Nodup :=
          List.nodup_cons.mpr ⟨hv, hnd⟩
        have hvB1 : ∀ n ∈ applyDelta current a :: st.visited, inB g n := by
          intro n hn
          rcases List.mem_cons.mp hn with rfl | hn
          · exact hinb
          · exact hvB n hn
        obtain ⟨A, B, C, k, hk1, hk2⟩ :=
          ih (fun x hx => hsub x (List.mem_cons_of_mem a hx))
            ⟨st.queue ++ [(applyDelta current a, Cost.add ccost a.cost)],
             applyDelta current a :: st.visited,
             st.branch ++ [(applyDelta current a,
               (Cost.add ccost a.cost, current, a))]⟩ hQ1 hnd1 hvB1
        refine ⟨A, B, C, k + 1, ?_, ?_⟩
        · rw [hk1]
          simp only [List.length_append, List.length_singleton]
          omega
        · rw [hk2]
          simp only [List.length_cons]
          omega

/-- When the goal is unreachable, a sufficiently fueled loop exhausts the
frontier and reports failure. -/
theorem uc_loop_unreachable (g : Grid) (s t : Cell) (hrect : Rect g)
    (hnr : ¬ Reach g s t) :
    ∀ (fuel : ℕ) (st : SState),
    (∀ e ∈ st.queue, Reach g s e.1 ∧ inB g e.1) →
    st.visited.Nodup → (∀ n ∈ st.visited, inB g n) →
    st.queue.length + rows g * cols g + 1 ≤ fuel + st.visited.length →
    ∃ br, uc_loop g t fuel st = .ok (false, br) := by
  intro fuel
  induction fuel with
  | zero =>
      intro st hQ hnd hvB harith
      exfalso
      have hcard := visited_card_le hnd hvB
      omega
  | succ f ih =>
      intro st hQ hnd hvB harith
      cases hq : st.queue with
      | nil => exact ⟨st.branch, by rw [uc_loop_succ, hq]⟩
      | cons e rest =>
          obtain ⟨current, ccost⟩ := e
          have hcur := hQ (current, ccost) (hq ▸ List.mem_cons_self _ _)
          have hne : current ≠ t := fun hh => hnr (hh ▸ hcur.1)
          obtain ⟨acts, hva⟩ := valid_actions_total g current hrect hcur.2
          have hQ0 : ∀ e ∈ ({ st with queue := rest } : SState).queue,
              Reach g s e.1 ∧ inB g e.1 :=
            fun e he => hQ e (hq ▸ List.mem_cons_of_mem _ he)
          obtain ⟨A, B, C, k, hk1, hk2⟩ := expand_reach g s current ccost
            hcur.1 hcur.2 acts hva acts (fun x hx => hx)
            { st with queue := rest } hQ0 hnd hvB
          have hlen : st.queue.length = rest.length + 1 := by
            rw [hq]; rfl
          obtain ⟨br, hloop⟩ := ih
            (expand current ccost acts { st with queue := rest }) A B C (by
              unfold expand
              rw [hk1, hk2]
              simp only
              omega)
          refine ⟨br, ?_⟩
          rw [uc_loop_succ, hq]
          dsimp only
          rw [if_neg hne, hva]
          exact hloop

/-- C7: for every rectangular grid and in-bounds start and goal such
that the goal is unreachable from the start through the moves the search
can take (free 8-connected cells), `plan` terminates normally after
exhausting the frontier with `found = false`, and the combined call
returns the empty action sequence with total cost `0` as an ordinary
result value, not an error. -/
theorem c7_unreachable_normal_result (g : Grid) (s t : Cell)
    (hrect : Rect g) (hs : inB g s) (_ht : inB g t) (hnr : ¬ Reach g s t) :
    Except.map Prod.fst (plan g s t) = .ok false ∧
    uniform_cost g s t = .ok ([], (0, 0)) := by
  obtain ⟨br, hbr⟩ := uc_loop_unreachable g s t hrect hnr (fuelFor g)
    ⟨[(s, (0, 0))], [], []⟩
    (by
      intro e he
      simp only [List.mem_singleton] at he
      subst he
      exact ⟨Reach.refl, hs⟩)
    (by simp) (by simp)
    (by simp only [List.length_singleton, List.length_nil, fuelFor]; omega)
  have hp : plan g s t = .ok (false, br) := hbr
  constructor
  · rw [hp]; rfl
  · unfold uniform_cost
    rw [hp]
    rfl

/-- On the grid `[[0, 1]]` nothing is reachable from `(0,0)` but the
start itself: the single candidate move RIGHT is blocked. -/
theorem g1x2_reach (c : Cell) (h : Reach g1x2 (0, 0) c) : c = (0, 0) := by
  induction h with
  | refl => rfl
  | @step c' acts a hr hva ha ih =>
      rw [ih] at hva
      have hva0 : valid_actions g1x2 (0, 0) = .ok [] := by rfl
      rw [hva0] at hva
      injection hva with he
      subst he
      cases ha

/-- C7 witness: the blocked goal `(0,1)` of `g1x2` is unreachable, the
search reports `found = false`, and the call returns `([], 0)`. -/
theorem c7_witness :
    Except.map Prod.fst (plan g1x2 (0, 0) (0, 1)) = .ok false ∧
    uniform_cost g1x2 (0, 0) (0, 1) = .ok ([], (0, 0)) :=
  c7_unreachable_normal_result g1x2 (0, 0) (0, 1) (by decide) (by decide) (by decide)
    (fun h => by have := g1x2_reach _ h; simp at this)
end FCND
